import Mathlib

set_option maxHeartbeats 1000000

/-!
# Verification of the "Convalidaciones" PDF header extractor

Shallow embedding, in Lean 4, of the field-extraction core of the
`main.py` / `extractor_conva.py` program: whitespace normalization
(`_clean_spaces`), the per-field regex tables and first-match extractor
(`_extract_first_compiled` / `_extract_first`), the name post-processor
(`_limpiar_nombre`), the remarks detector (`_extraer_observacion_paquete`),
the page scanner with early exit (`extract_conva_header`), the row
assembler (`header_to_row`), the batch worker loop (`worker`), and the
export guard (`export_excel`).

Strings are modelled as their lists of characters (`String.data`), pages of
a PDF as the list of per-page extracted texts (`Option String`, `none` when
`extract_text()` returns `None`), and the fixed regular expressions of the
pattern table as executable search functions written to follow Python
`re.search` semantics (leftmost match, greedy quantifiers with the
backtracking the concrete patterns can exercise, `re.IGNORECASE`).
-/

/-! ## Character classes

`isWS` is Python's `\s` on the ASCII range (space, tab, newline, carriage
return, vertical tab, form feed); the program's texts and patterns only
exercise these members. -/

def isWS (c : Char) : Bool :=
  c.toNat == 32 || c.toNat == 9 || c.toNat == 10 || c.toNat == 13 ||
  c.toNat == 11 || c.toNat == 12

/-- Lowercasing as used for `re.IGNORECASE` and `str.lower()`: ASCII plus
the accented Latin letters that occur in the program's patterns and texts. -/
def lowChar (c : Char) : Char :=
  if 'A' ≤ c ∧ c ≤ 'Z' then Char.ofNat (c.toNat + 32)
  else if c = 'Á' then 'á' else if c = 'É' then 'é'
  else if c = 'Í' then 'í' else if c = 'Ó' then 'ó'
  else if c = 'Ú' then 'ú' else if c = 'Ñ' then 'ñ'
  else if c = 'Ü' then 'ü' else c

/-- Python's `\w` (word character) for the alphabets the program touches:
ASCII alphanumerics, underscore, and Spanish accented letters. Used for the
`\b` word-boundary assertions in the patterns. -/
def isWordChar (c : Char) : Bool :=
  c.isAlphanum || c == '_' ||
  (c == 'á' || c == 'é' || c == 'í' || c == 'ó' || c == 'ú' || c == 'ñ' || c == 'ü' ||
   c == 'Á' || c == 'É' || c == 'Í' || c == 'Ó' || c == 'Ú' || c == 'Ñ' || c == 'Ü')

/-! ## `_clean_spaces`

Source (`main.py` line 31, identical in `extractor_conva.py`):
`re.sub(r"\s+", " ", s).strip()`.

`subWS` is the `re.sub(r"\s+", " ", ·)` pass: it replaces every maximal run
of whitespace by a single space (the Boolean argument records whether the
replacement space of the current run has already been emitted). `stripWS`
is `str.strip()`: it drops whitespace from both ends. -/

def subWS : List Char → Bool → List Char
  | [], _ => []
  | c :: cs, inRun =>
    if isWS c then
      if inRun then subWS cs true else ' ' :: subWS cs true
    else c :: subWS cs false

def stripWS (l : List Char) : List Char :=
  ((l.dropWhile isWS).reverse.dropWhile isWS).reverse

def cleanSpaces (s : String) : String :=
  String.mk (stripWS (subWS s.data false))

/-! ### Structure of `_clean_spaces` output

A normalized list has only `' '` as whitespace (`onlySpace`), never two
adjacent whitespace characters (`noWW`), and no leading or trailing
whitespace (`headNW` at both ends). These invariants make a second
normalization pass the identity. -/

def headNW : List Char → Prop
  | [] => True
  | c :: _ => isWS c = false

def onlySpace (l : List Char) : Prop :=
  ∀ c ∈ l, isWS c = true → c = ' '

def noWW : List Char → Bool
  | c1 :: c2 :: cs => (!(isWS c1 && isWS c2)) && noWW (c2 :: cs)
  | _ => true

/-! ## Substring search and `_limpiar_nombre`

Source (`main.py` lines 35-46, equivalent loop in `extractor_conva.py`):
the raw name is truncated at `nombre[:idx]` for the first entry `c` of the
fixed list `cortes` such that `nombre.lower().find(c.lower())` is not `-1`
(the loop breaks at that entry), then `_clean_spaces` runs. A `None` or
empty raw name yields `None` (`if not nombre_raw`). -/

def startsWithCI : List Char → List Char → Bool
  | _, [] => true
  | [], _ :: _ => false
  | c :: cs, p :: ps => (c == p) && startsWithCI cs ps

/-- Python `str.find`: smallest index where `p` occurs in `l` (as `Option`
instead of `-1`). -/
def findSub : List Char → List Char → Option Nat
  | [], p => if startsWithCI [] p then some 0 else none
  | c :: cs, p =>
    if startsWithCI (c :: cs) p then some 0 else (findSub cs p).map (· + 1)

def cortes : List String := [" ID Estudiante:", " Código:", " CODIGO:", " ID ESTUDIANTE:"]

def _limpiar_nombre (nombre_raw : Option String) : Option String :=
  match nombre_raw with
  | none => none
  | some s =>
    if s = "" then none
    else
      let low := s.data.map lowChar
      match cortes.findSome? (fun c => findSub low (c.data.map lowChar)) with
      | some idx => some (cleanSpaces (String.mk (s.data.take idx)))
      | none => some (cleanSpaces s)

/-! ## The compiled patterns

A compiled pattern is embedded as its `re.search` function: `none` means no
match anywhere in the text; `some g` is a match whose group 1 captured `g`
(`g = none` would be a match without the group, which none of this
program's patterns can produce, but the case is kept because the source
tests `m.group(1) is not None`). All patterns are compiled with
`re.IGNORECASE` (`_compile_patterns`), realized here by `lowChar` on both
sides of every literal comparison. -/

def RePat : Type := String → Option (Option String)

/-- Source (`main.py` lines 63-70; `_extract_first` in
`extractor_conva.py` is the same loop over uncompiled patterns): try the
patterns in listed order; the first one that matches with a non-null
group 1 returns that capture whitespace-normalized; otherwise `None`. -/
def _extract_first_compiled : List RePat → String → Option String
  | [], _ => none
  | p :: ps, text =>
    match p text with
    | some (some v) => some (cleanSpaces v)
    | _ => _extract_first_compiled ps text

/-- Case-insensitive literal: consume the pattern's literal characters at
the head of the input, return the rest. -/
def ciLit : List Char → List Char → Option (List Char)
  | [], l => some l
  | _ :: _, [] => none
  | p :: ps, c :: cs => if lowChar c == lowChar p then ciLit ps cs else none

/-- `\s+` (greedy; every use in the patterns is followed by a
non-whitespace literal, so maximal munch is exact). -/
def reqWS : List Char → Option (List Char)
  | [] => none
  | c :: cs => if isWS c then some (List.dropWhile isWS cs) else none

/-- `\s*([^\n]+)` at the end of a pattern, with the backtracking
`re` performs: `\s*` first takes the maximal whitespace run, then backs
off (shortening the run from the right) until `[^\n]+` can start on a
non-newline character; the group then takes the maximal newline-free run. -/
def lineBack (l : List Char) : Nat → Option (List Char)
  | 0 =>
    match l with
    | c :: cs =>
      if c == '\n' then none
      else some (List.takeWhile (fun d => d != '\n') (c :: cs))
    | [] => none
  | Nat.succ j' =>
    match l.drop (j' + 1) with
    | c :: cs =>
      if c == '\n' then lineBack l j'
      else some (List.takeWhile (fun d => d != '\n') (c :: cs))
    | [] => lineBack l j'

def capLine (l : List Char) : Option (List Char) :=
  lineBack l (l.takeWhile isWS).length

/-- `\s*(CLASS+)` for a class disjoint from whitespace (digits,
digits-and-dot): maximal whitespace, then a maximal nonempty run. -/
def capPlus (cl : Char → Bool) (l : List Char) : Option (List Char) :=
  let d := List.takeWhile cl (List.dropWhile isWS l)
  if d.isEmpty then none else some d

def prevWord : Option Char → Bool
  | none => false
  | some c => isWordChar c

/-- `\s*(N\d+)`: the group keeps the text's own case for the `N`
(`re.IGNORECASE` also matches a lowercase `n`). -/
def capNDigits (l : List Char) : Option (List Char) :=
  match List.dropWhile isWS l with
  | c :: cs =>
    if lowChar c == 'n' then
      let d := List.takeWhile Char.isDigit cs
      if d.isEmpty then none else some (c :: d)
    else none
  | [] => none

/-- `Apellidos\s+y\s+Nombres:\s*([^\n]+)` anchored at the current position. -/
def mNombre (rest : List Char) : Option (List Char) := do
  let r1 ← ciLit "Apellidos".data rest
  let r2 ← reqWS r1
  let r3 ← ciLit "y".data r2
  let r4 ← reqWS r3
  let r5 ← ciLit "Nombres:".data r4
  capLine r5

/-- `\bID\s*Estudiante:\s*(N\d+)` anchored at the current position
(`prev` is the preceding character, for the word boundary). -/
def mCodigo1 (prev : Option Char) (rest : List Char) : Option (List Char) :=
  if prevWord prev then none
  else do
    let r1 ← ciLit "ID".data rest
    let r2 := List.dropWhile isWS r1
    let r3 ← ciLit "Estudiante:".data r2
    capNDigits r3

/-- `\bCódigo:\s*(N\d+)` anchored at the current position. -/
def mCodigo2 (prev : Option Char) (rest : List Char) : Option (List Char) :=
  if prevWord prev then none
  else do
    let r1 ← ciLit "Código:".data rest
    capNDigits r1

/-- `Carrera\s+en\s+UPN:\s*([^\n]+)` anchored at the current position. -/
def mCarrera1 (rest : List Char) : Option (List Char) := do
  let r1 ← ciLit "Carrera".data rest
  let r2 ← reqWS r1
  let r3 ← ciLit "en".data r2
  let r4 ← reqWS r3
  let r5 ← ciLit "UPN:".data r4
  capLine r5

/-- `Carrera\s+UPN:\s*([^\n]+)` anchored at the current position. -/
def mCarrera2 (rest : List Char) : Option (List Char) := do
  let r1 ← ciLit "Carrera".data rest
  let r2 ← reqWS r1
  let r3 ← ciLit "UPN:".data r2
  capLine r3

/-- `Campus:\s*([^\n]+)` anchored at the current position. -/
def mCampus (rest : List Char) : Option (List Char) := do
  let r1 ← ciLit "Campus:".data rest
  capLine r1

/-- `Plan\s+de\s+Estudios:\s*([0-9]+)` anchored at the current position. -/
def mPlan (rest : List Char) : Option (List Char) := do
  let r1 ← ciLit "Plan".data rest
  let r2 ← reqWS r1
  let r3 ← ciLit "de".data r2
  let r4 ← reqWS r3
  let r5 ← ciLit "Estudios:".data r4
  capPlus Char.isDigit r5

/-- `\s*([0-9]{1,2}/[0-9]{1,2}/[0-9]{4})`: a `{1,2}` digit run must be
followed by `/` (a third digit defeats both lengths), the year takes the
first four digits of a run of at least four. -/
def capDate (l : List Char) : Option (List Char) :=
  let r := List.dropWhile isWS l
  let d1 := List.takeWhile Char.isDigit r
  if d1.isEmpty || 2 < d1.length then none
  else
    match r.drop d1.length with
    | '/' :: r2 =>
      let d2 := List.takeWhile Char.isDigit r2
      if d2.isEmpty || 2 < d2.length then none
      else
        match r2.drop d2.length with
        | '/' :: r3 =>
          let d3 := List.takeWhile Char.isDigit r3
          if d3.length < 4 then none
          else some (d1 ++ '/' :: d2 ++ '/' :: d3.take 4)
        | _ => none
    | _ => none

/-- `\bFecha:\s*([0-9]{1,2}/[0-9]{1,2}/[0-9]{4})` anchored at the current
position. -/
def mFecha (prev : Option Char) (rest : List Char) : Option (List Char) :=
  if prevWord prev then none
  else do
    let r1 ← ciLit "Fecha:".data rest
    capDate r1

/-- `Versión\s+ExcelConva:\s*([0-9.]+)` anchored at the current position. -/
def mVersion1 (rest : List Char) : Option (List Char) := do
  let r1 ← ciLit "Versión".data rest
  let r2 ← reqWS r1
  let r3 ← ciLit "ExcelConva:".data r2
  capPlus (fun c => c.isDigit || c == '.') r3

/-- `Versión\s+Conva2025G\s*:\s*([0-9.]+)` anchored at the current position. -/
def mVersion2 (rest : List Char) : Option (List Char) := do
  let r1 ← ciLit "Versión".data rest
  let r2 ← reqWS r1
  let r3 ← ciLit "Conva2025G".data r2
  let r4 := List.dropWhile isWS r3
  let r5 ← ciLit ":".data r4
  capPlus (fun c => c.isDigit || c == '.') r5

/-- `Versión\s+Conva\s*:\s*([^\n]+)` anchored at the current position. -/
def mVersion3 (rest : List Char) : Option (List Char) := do
  let r1 ← ciLit "Versión".data rest
  let r2 ← reqWS r1
  let r3 ← ciLit "Conva".data r2
  let r4 := List.dropWhile isWS r3
  let r5 ← ciLit ":".data r4
  capLine r5

/-- The optional `(?:o\s*Total\s*[:])?` of the first credit-total pattern. -/
def optTotal (l : List Char) : Option (List Char) := do
  let a ← ciLit "o".data l
  let b := List.dropWhile isWS a
  let c ← ciLit "Total".data b
  let d := List.dropWhile isWS c
  ciLit ":".data d

/-- `TOTAL\s+DE\s+CRÉDITOS\s*(?:o\s*Total\s*[:])?\s*([0-9]+)` anchored at
the current position. -/
def mTotal1 (rest : List Char) : Option (List Char) := do
  let r1 ← ciLit "TOTAL".data rest
  let r2 ← reqWS r1
  let r3 ← ciLit "DE".data r2
  let r4 ← reqWS r3
  let r5 ← ciLit "CRÉDITOS".data r4
  let r6 := List.dropWhile isWS r5
  let r7 := match optTotal r6 with
    | some r => r
    | none => r6
  capPlus Char.isDigit r7

/-- `\bTotal\s+([0-9]+)\b` anchored at the current position: the group is
the maximal digit run and the character after it (if any) must not be a
word character (a shorter run would leave a digit at the boundary). -/
def mTotal2 (prev : Option Char) (rest : List Char) : Option (List Char) :=
  if prevWord prev then none
  else do
    let r1 ← ciLit "Total".data rest
    let r2 ← reqWS r1
    let d := List.takeWhile Char.isDigit r2
    if d.isEmpty then none
    else
      match r2.drop d.length with
      | [] => some d
      | c :: _ => if isWordChar c then none else some d

/-- `re.search` for a group-capturing pattern: try every start position
left to right (leftmost match), threading the previous character for the
word-boundary assertions. -/
def searchG (m : Option Char → List Char → Option (List Char)) :
    Option Char → List Char → Option (List Char)
  | prev, [] => m prev []
  | prev, c :: cs =>
    match m prev (c :: cs) with
    | some g => some g
    | none => searchG m (some c) cs

def compiled (m : Option Char → List Char → Option (List Char)) : RePat :=
  fun t => (searchG m none t.data).map (fun g => some (String.mk g))

/-! The pattern table (`main.py` lines 73-87; the same regex lists appear
inline in `extractor_conva.py`). -/

def PATRONES_NOMBRE : List RePat := [compiled (fun _ => mNombre)]

def PATRONES_CODIGO : List RePat := [compiled mCodigo1, compiled mCodigo2]

def PATRONES_CARRERA : List RePat :=
  [compiled (fun _ => mCarrera1), compiled (fun _ => mCarrera2)]

def PATRONES_CAMPUS : List RePat := [compiled (fun _ => mCampus)]

def PATRONES_PLAN : List RePat := [compiled (fun _ => mPlan)]

def PATRONES_FECHA : List RePat := [compiled mFecha]

def PATRONES_VERSION : List RePat :=
  [compiled (fun _ => mVersion1), compiled (fun _ => mVersion2),
   compiled (fun _ => mVersion3)]

def PATRONES_TOTAL : List RePat :=
  [compiled (fun _ => mTotal1), compiled mTotal2]

/-! ## `_extraer_observacion_paquete`

Source (`main.py` lines 49-56): first search
`(Convalidación\s+por\s+paquete\s*\([^\)]+\))`, then the bare
`(Convalidación\s+por\s+paquete)`; in both the group is the whole match,
so the searchers below return the matched slice of the text. -/

/-- `Convalidación\s+por\s+paquete` anchored at the current position,
returning the rest after the match. -/
def phraseCore (l : List Char) : Option (List Char) := do
  let r1 ← ciLit "Convalidación".data l
  let r2 ← reqWS r1
  let r3 ← ciLit "por".data r2
  let r4 ← reqWS r3
  ciLit "paquete".data r4

/-- `Convalidación\s+por\s+paquete\s*\([^\)]+\)` anchored at the current
position, returning the rest after the match. -/
def paqCore (l : List Char) : Option (List Char) := do
  let r5 ← phraseCore l
  let r6 := List.dropWhile isWS r5
  let r7 ← ciLit "(".data r6
  let body := List.takeWhile (fun c => c != ')') r7
  if body.isEmpty then none
  else
    match r7.drop body.length with
    | ')' :: r8 => some r8
    | _ => none

/-- `re.search` for a pattern whose group is the whole match: try every
start position left to right, return the matched slice. -/
def searchSlice (core : List Char → Option (List Char)) : List Char → Option (List Char)
  | [] =>
    match core [] with
    | some _ => some []
    | none => none
  | c :: cs =>
    match core (c :: cs) with
    | some rest => some (List.take ((c :: cs).length - rest.length) (c :: cs))
    | none => searchSlice core cs

def _extraer_observacion_paquete (text : String) : Option String :=
  match searchSlice paqCore text.data with
  | some s => some (cleanSpaces (String.mk s))
  | none =>
    match searchSlice phraseCore text.data with
    | some s => some (cleanSpaces (String.mk s))
    | none => none

/-! ## The header record and the page scanner

Source (`main.py` lines 16-28 and 90-181). A PDF document is modelled as
the list of its pages' `extract_text()` results (`none` for a page with no
text layer; the source substitutes `""` via `or ""`). The loop state
carries the nine per-field slots plus the `found` counter; `scanPages`
returns the final state, the number of pages the loop examined, and the
list of the non-blank page texts it processed (in order), which are the
pages on which extraction was actually attempted. -/

structure ConvaHeader where
  apellidos_nombres : Option String := none
  codigo : Option String := none
  carrera_upn : Option String := none
  campus : Option String := none
  plan_estudios : Option String := none
  fecha : Option String := none
  version_excelconva : Option String := none
  total_creditos : Option String := none
  observaciones : Option String := none
  nombre_pdf : Option String := none
  ruta_pdf : Option String := none
deriving DecidableEq

/-- Python truthiness of an `Optional[str]`: `None` and `""` are falsy. -/
def truthy : Option String → Bool
  | none => false
  | some s => s != ""

/-- One per-field block of the page loop:
`if f is None: f = extract(...); (if f: found += 1)`. Returns the new
slot value and the `found` increment. -/
def stepField (cur : Option String) (v : Option String) : Option String × Nat :=
  match cur with
  | some s => (some s, 0)
  | none => (v, if truthy v then 1 else 0)

structure ScanState where
  nombre_raw : Option String
  codigo : Option String
  carrera_raw : Option String
  campus : Option String
  plan : Option String
  fecha : Option String
  version : Option String
  total : Option String
  observ : Option String
  found : Nat
deriving DecidableEq

def initScan : ScanState :=
  ⟨none, none, none, none, none, none, none, none, none, 0⟩

/-- The body of one non-blank loop iteration (`main.py` lines 117-160). -/
def scanPage (st : ScanState) (txt : String) : ScanState :=
  let p1 := stepField st.nombre_raw (_extract_first_compiled PATRONES_NOMBRE txt)
  let p2 := stepField st.codigo (_extract_first_compiled PATRONES_CODIGO txt)
  let p3 := stepField st.carrera_raw (_extract_first_compiled PATRONES_CARRERA txt)
  let p4 := stepField st.campus (_extract_first_compiled PATRONES_CAMPUS txt)
  let p5 := stepField st.plan (_extract_first_compiled PATRONES_PLAN txt)
  let p6 := stepField st.fecha (_extract_first_compiled PATRONES_FECHA txt)
  let p7 := stepField st.version (_extract_first_compiled PATRONES_VERSION txt)
  let p8 := stepField st.total (_extract_first_compiled PATRONES_TOTAL txt)
  let p9 := stepField st.observ (_extraer_observacion_paquete txt)
  { nombre_raw := p1.1, codigo := p2.1, carrera_raw := p3.1, campus := p4.1,
    plan := p5.1, fecha := p6.1, version := p7.1, total := p8.1, observ := p9.1,
    found := st.found + p1.2 + p2.2 + p3.2 + p4.2 + p5.2 + p6.2 + p7.2 + p8.2 + p9.2 }

/-- Python `not txt.strip()`: the page text is empty or all whitespace. -/
def isBlank (txt : String) : Bool := txt.data.all isWS

/-- The page loop (`main.py` lines 112-163): each iteration reads one page
(`extract_text() or ""`), skips it if blank, otherwise runs the nine field
blocks and breaks once `found >= 7` (`need_min`). Returns
`(final state, pages examined, non-blank pages processed)`. -/
def scanPages : List (Option String) → ScanState → ScanState × Nat × List String
  | [], st => (st, 0, [])
  | p :: ps, st =>
    let txt := p.getD ""
    if isBlank txt then
      let r := scanPages ps st
      (r.1, r.2.1 + 1, r.2.2)
    else
      let st' := scanPage st txt
      if 7 ≤ st'.found then (st', 1, [txt])
      else
        let r := scanPages ps st'
        (r.1, r.2.1 + 1, txt :: r.2.2)

/-- Number of the nine field slots holding any value (`is not None`). -/
def countSome (st : ScanState) : Nat :=
  (if st.nombre_raw.isSome then 1 else 0) + (if st.codigo.isSome then 1 else 0) +
  (if st.carrera_raw.isSome then 1 else 0) + (if st.campus.isSome then 1 else 0) +
  (if st.plan.isSome then 1 else 0) + (if st.fecha.isSome then 1 else 0) +
  (if st.version.isSome then 1 else 0) + (if st.total.isSome then 1 else 0) +
  (if st.observ.isSome then 1 else 0)

/-- Number of the nine field slots holding a non-empty value (truthy). -/
def countTruthy (st : ScanState) : Nat :=
  (if truthy st.nombre_raw then 1 else 0) + (if truthy st.codigo then 1 else 0) +
  (if truthy st.carrera_raw then 1 else 0) + (if truthy st.campus then 1 else 0) +
  (if truthy st.plan then 1 else 0) + (if truthy st.fecha then 1 else 0) +
  (if truthy st.version then 1 else 0) + (if truthy st.total then 1 else 0) +
  (if truthy st.observ then 1 else 0)

/-! ### Program-name post-processing of the scanner result -/

/-- One anchored match of `\s+Modalidad:.*$` (`re.IGNORECASE`, no
`re.MULTILINE`): at least one whitespace character, the literal, then `.*`
(newline-free) up to the end of the string or a position followed only by
a final newline. Returns what the replacement by `""` keeps (the part the
`$` did not consume: nothing, or the final newline). -/
def matchModAt (l : List Char) : Option (List Char) :=
  let k := (l.takeWhile isWS).length
  if k = 0 then none
  else
    match ciLit "Modalidad:".data (l.drop k) with
    | some rest =>
      let m := List.takeWhile (fun d => d != '\n') rest
      let after := rest.drop m.length
      if after.isEmpty || after = ['\n'] then some after else none
    | none => none

/-- `re.sub(r"\s+Modalidad:.*$", "", ·)` scanning left to right. A match
consumes everything to the end except possibly one final newline, on which
no further match can start, so substitution ends there. -/
def subModalidad : List Char → List Char
  | [] => []
  | c :: cs =>
    match matchModAt (c :: cs) with
    | some after => after
    | none => c :: subModalidad cs

/-- `os.path.basename` for `/`-separated paths. -/
def basename (p : String) : String :=
  String.mk ((p.data.reverse.takeWhile (fun c => c != '/')).reverse)

/-- `extract_conva_header` (`main.py` lines 90-181), with the document's
page texts passed in place of the `pdfplumber` handle. The scanner runs on
the first `min(len(pages), max_pages)` pages; afterwards the raw name goes
through `_limpiar_nombre` and the raw program name through the
`Modalidad:`-stripping substitution (only when truthy). -/
def extract_conva_header (pdf_path : String) (pages : List (Option String))
    (max_pages : Nat := 4) : ConvaHeader :=
  let nombre_pdf := basename pdf_path
  let st := (scanPages (pages.take (min pages.length max_pages)) initScan).1
  let carrera_limpia :=
    if truthy st.carrera_raw then
      some (cleanSpaces (String.mk (subModalidad (st.carrera_raw.getD "").data)))
    else none
  { apellidos_nombres := _limpiar_nombre st.nombre_raw
    codigo := st.codigo
    carrera_upn := carrera_limpia
    campus := st.campus
    plan_estudios := st.plan
    fecha := st.fecha
    version_excelconva := st.version
    total_creditos := st.total
    observaciones := st.observ
    nombre_pdf := some nombre_pdf
    ruta_pdf := some pdf_path }

/-! ## Row assembly, batch worker, export

Source: `header_to_row` (`main.py` lines 184-197), the worker closure of
`start_processing` (lines 363-409), `cancel` (lines 317-321) and
`export_excel` (lines 285-294). A `Row` is the ordered ten-column dict the
export writes. The worker reads the cooperative cancellation flag at the
top of each file iteration and once more after the loop; the flag is
modelled as the value it has at each of those reads (`flag i` for the
check before file `i`, zero-based; `flag paths.length` for the final
read). Opening and reading one PDF is modelled as
`fetch : String → Except String (List (Option String))`: `ok` gives the
page texts, `error` the description of the exception the `try` block
catches around `extract_conva_header`. -/

structure Row where
  apellidos_nombres : Option String
  codigo : Option String
  carrera_upn : Option String
  campus : Option String
  plan_estudios : Option String
  fecha : Option String
  version_excelconva : Option String
  total_creditos : Option String
  observaciones : Option String
  nombre_pdf : Option String
deriving DecidableEq

def header_to_row (h : ConvaHeader) : Row :=
  { apellidos_nombres := h.apellidos_nombres
    codigo := h.codigo
    carrera_upn := h.carrera_upn
    campus := h.campus
    plan_estudios := h.plan_estudios
    fecha := h.fecha
    version_excelconva := h.version_excelconva
    total_creditos := h.total_creditos
    observaciones := h.observaciones
    nombre_pdf := h.nombre_pdf }

/-- The `except` branch of the worker loop (`main.py` lines 376-389):
every data column `None`, the remarks column `"ERROR: " + str(ex)`, the
filename column the current file's basename. -/
def errorRow (ex : String) (current_name : String) : Row :=
  { apellidos_nombres := none, codigo := none, carrera_upn := none,
    campus := none, plan_estudios := none, fecha := none,
    version_excelconva := none, total_creditos := none,
    observaciones := some ("ERROR: " ++ ex),
    nombre_pdf := some current_name }

/-- One file of the batch: the `try` body on success, the `except` row on
failure. The Boolean reports which branch ran (`ok += 1` / `errores += 1`). -/
def processFile (fetch : String → Except String (List (Option String)))
    (p : String) : Row × Bool :=
  match fetch p with
  | .ok pages => (header_to_row (extract_conva_header p pages 4), true)
  | .error ex => (errorRow ex (basename p), false)

inductive BatchStatus where
  | done : Nat → Nat → Nat → BatchStatus
  | cancelled : Nat → Nat → Nat → BatchStatus
  | critical : BatchStatus
deriving DecidableEq

def BatchStatus.isCancelledStatus : BatchStatus → Bool
  | .cancelled _ _ _ => true
  | _ => false

/-- The `for` loop of the worker (`main.py` lines 367-392): check the
cancellation flag, break if set, otherwise process the file, append its
row, and continue; `i` is the zero-based index of the next file. Returns
the appended rows in order with the `ok` and `errores` counters. -/
def workerGo (fetch : String → Except String (List (Option String)))
    (flag : Nat → Bool) : Nat → List String → List Row × Nat × Nat
  | _, [] => ([], 0, 0)
  | i, p :: ps =>
    if flag i then ([], 0, 0)
    else
      let pr := processFile fetch p
      let r := workerGo fetch flag (i + 1) ps
      (pr.1 :: r.1, (if pr.2 then 1 else 0) + r.2.1, (if pr.2 then 0 else 1) + r.2.2)

/-- The worker (`main.py` lines 363-409) for one batch starting from an
empty result list: run the loop, then re-read the flag to choose the
`Cancelado` status (with `len(registros)` processed) or the `Listo`
status. -/
def worker (fetch : String → Except String (List (Option String)))
    (flag : Nat → Bool) (paths : List String) : List Row × BatchStatus :=
  let r := workerGo fetch flag 0 paths
  if flag paths.length then (r.1, .cancelled r.1.length r.2.1 r.2.2)
  else (r.1, .done paths.length r.2.1 r.2.2)

inductive ExportStatus where
  | noData : ExportStatus
  | exported : ExportStatus
deriving DecidableEq

/-- `export_excel` (`main.py` lines 285-294): with an empty result list,
set the "No hay datos para exportar." status and return without writing;
otherwise write the spreadsheet (modelled as the rows the
`DataFrame(registros, columns=columns).to_excel` call serializes) and set
the exported status. -/
def export_excel (registros : List Row) : Option (List Row) × ExportStatus :=
  if registros.isEmpty then (none, .noData)
  else (some registros, .exported)

/-- The scanner run of `extract_conva_header`: final state, number of pages
examined, non-blank pages processed (the loop of `main.py` lines 110-163
over the first `min(len(pdf.pages), max_pages)` pages). -/
def scanDoc (pages : List (Option String)) (max_pages : Nat) :
    ScanState × Nat × List String :=
  scanPages (pages.take (min pages.length max_pages)) initScan

/-- A concrete one-failure file store for exercising the batch worker. -/
def fetchW : String → Except String (List (Option String)) :=
  fun p => if p = "b.pdf" then .error "boom" else .ok [some "Campus: Lima\n"]

/-! # Theorems -/

example : cleanSpaces "  a\n\n b\tc  " = "a b c" := by decide

theorem subWS_true_eq {cs : List Char} (h : headNW cs) :
    subWS cs true = subWS cs false := by
  cases cs with
  | nil => rfl
  | cons c cs' => simp only [headNW] at h; simp [subWS, h]

theorem headNW_subWS_true (cs : List Char) : headNW (subWS cs true) := by
  induction cs with
  | nil => simp [subWS, headNW]
  | cons c cs ih =>
    by_cases hw : isWS c
    · simpa [subWS, hw] using ih
    · have hw' : isWS c = false := by simpa using hw
      simp [subWS, hw', headNW]

theorem onlySpace_subWS (cs : List Char) (b : Bool) : onlySpace (subWS cs b) := by
  induction cs generalizing b with
  | nil => intro c hc; simp [subWS] at hc
  | cons c cs ih =>
    by_cases hw : isWS c
    · cases b with
      | true => simpa [subWS, hw] using ih true
      | false =>
        intro d hd hws
        simp [subWS, hw] at hd
        rcases hd with h | h
        · exact h
        · exact ih true d h hws
    · intro d hd hws
      simp [subWS, hw] at hd
      rcases hd with h | h
      · subst h; simp [hws] at hw
      · exact ih false d h hws

theorem noWW_tail {c : Char} {cs : List Char} (h : noWW (c :: cs) = true) :
    noWW cs = true := by
  cases cs with
  | nil => rfl
  | cons c' cs' => simp [noWW] at h; exact h.2

theorem noWW_cons_of_headNW {rest : List Char} (x : Char)
    (h1 : headNW rest) (h2 : noWW rest = true) : noWW (x :: rest) = true := by
  cases rest with
  | nil => rfl
  | cons c cs => simp only [headNW] at h1; simp [noWW, h1, h2]

theorem noWW_cons_of_notWS {x : Char} {rest : List Char}
    (h : isWS x = false) (h2 : noWW rest = true) : noWW (x :: rest) = true := by
  cases rest with
  | nil => rfl
  | cons c cs => simp [noWW, h, h2]

theorem noWW_subWS (cs : List Char) (b : Bool) : noWW (subWS cs b) = true := by
  induction cs generalizing b with
  | nil => cases b <;> rfl
  | cons c cs ih =>
    by_cases hw : isWS c
    · cases b with
      | true => simpa [subWS, hw] using ih true
      | false =>
        simp only [subWS, hw, if_true]
        exact noWW_cons_of_headNW ' ' (headNW_subWS_true cs) (ih true)
    · simp only [subWS, hw, if_false, Bool.false_eq_true]
      exact noWW_cons_of_notWS (by simpa using hw) (ih false)

theorem subWS_fix {v : List Char} (h1 : onlySpace v) (h2 : noWW v = true) :
    subWS v false = v := by
  induction v with
  | nil => rfl
  | cons c cs ih =>
    by_cases hw : isWS c
    · have hc : c = ' ' := h1 c (List.mem_cons_self c cs) hw
      have hcs : headNW cs := by
        cases cs with
        | nil => trivial
        | cons c' cs' =>
          simp only [noWW, hw, Bool.true_and, Bool.and_eq_true,
            Bool.not_eq_true'] at h2
          exact h2.1
      have htail : subWS cs true = cs := by
        rw [subWS_true_eq hcs]
        exact ih (fun d hd => h1 d (List.mem_cons_of_mem c hd)) (noWW_tail h2)
      subst hc
      simp [subWS, hw, htail]
    · have htail : subWS cs false = cs :=
        ih (fun d hd => h1 d (List.mem_cons_of_mem c hd)) (noWW_tail h2)
      simp [subWS, hw, htail]

theorem headNW_dropWhile (l : List Char) : headNW (l.dropWhile isWS) := by
  induction l with
  | nil => trivial
  | cons c cs ih =>
    by_cases hw : isWS c
    · simpa [List.dropWhile_cons, hw] using ih
    · simp [List.dropWhile_cons, hw, headNW]

theorem dropWhileWS_eq_drop (l : List Char) : ∃ k, l.dropWhile isWS = l.drop k := by
  induction l with
  | nil => exact ⟨0, rfl⟩
  | cons c cs ih =>
    by_cases hw : isWS c
    · obtain ⟨k, hk⟩ := ih
      exact ⟨k + 1, by simpa [List.dropWhile_cons, hw] using hk⟩
    · exact ⟨0, by simp [List.dropWhile_cons, hw]⟩

theorem headNW_take {l : List Char} (m : Nat) (h : headNW l) : headNW (l.take m) := by
  cases l with
  | nil => simp [headNW]
  | cons c cs => cases m with
    | zero => trivial
    | succ m' => simpa [headNW] using h

theorem stripWS_eq_take (l : List Char) :
    ∃ m, stripWS l = (l.dropWhile isWS).take m := by
  obtain ⟨k, hk⟩ := dropWhileWS_eq_drop (l.dropWhile isWS).reverse
  refine ⟨(l.dropWhile isWS).length - k, ?_⟩
  simp only [stripWS, hk, List.drop_reverse, List.reverse_reverse]

theorem headNW_stripWS (l : List Char) : headNW (stripWS l) := by
  obtain ⟨m, hm⟩ := stripWS_eq_take l
  rw [hm]
  exact headNW_take m (headNW_dropWhile l)

theorem headNW_rev_stripWS (l : List Char) : headNW (stripWS l).reverse := by
  simp only [stripWS, List.reverse_reverse]
  exact headNW_dropWhile _

theorem dropWhileWS_fix {l : List Char} (h : headNW l) : l.dropWhile isWS = l := by
  cases l with
  | nil => rfl
  | cons c cs => simp only [headNW] at h; simp [List.dropWhile_cons, h]

theorem stripWS_fix {l : List Char} (h1 : headNW l) (h2 : headNW l.reverse) :
    stripWS l = l := by
  simp only [stripWS, dropWhileWS_fix h1, dropWhileWS_fix h2, List.reverse_reverse]

theorem stripWS_idem (l : List Char) : stripWS (stripWS l) = stripWS l :=
  stripWS_fix (headNW_stripWS l) (headNW_rev_stripWS l)

theorem onlySpace_stripWS {l : List Char} (h : onlySpace l) :
    onlySpace (stripWS l) := by
  obtain ⟨m, hm⟩ := stripWS_eq_take l
  rw [hm]
  intro c hc hws
  exact h c (List.Sublist.mem (List.Sublist.mem hc (List.take_sublist _ _))
    (List.dropWhile_sublist _)) hws

theorem noWW_drop (k : Nat) (l : List Char) (h : noWW l = true) :
    noWW (l.drop k) = true := by
  induction k generalizing l with
  | zero => simpa using h
  | succ k ih =>
    cases l with
    | nil => rfl
    | cons c cs => simpa using ih cs (noWW_tail h)

theorem noWW_take (l : List Char) (m : Nat) (h : noWW l = true) :
    noWW (l.take m) = true := by
  induction l generalizing m with
  | nil => simp [noWW]
  | cons c cs ih =>
    cases m with
    | zero => rfl
    | succ m' =>
      cases cs with
      | nil => rw [List.take_succ_cons, List.take_nil]; rfl
      | cons c' cs' =>
        cases m' with
        | zero => rfl
        | succ m'' =>
          simp only [List.take, noWW, Bool.and_eq_true] at h ⊢
          exact ⟨h.1, by simpa using ih (m'' + 1) h.2⟩

theorem noWW_stripWS {l : List Char} (h : noWW l = true) :
    noWW (stripWS l) = true := by
  obtain ⟨m, hm⟩ := stripWS_eq_take l
  obtain ⟨k, hk⟩ := dropWhileWS_eq_drop l
  rw [hm, hk]
  exact noWW_take _ m (noWW_drop k l h)

/-- C9: `_clean_spaces` is idempotent: normalizing an already-normalized
string returns it unchanged. `cleanSpaces` is the embedding of
`re.sub(r"\s+", " ", s).strip()`: every run of whitespace (newlines
included) collapses to a single space and leading/trailing whitespace is
trimmed, and applying it twice equals applying it once, for every string. -/
theorem clean_spaces_idempotent (s : String) :
    cleanSpaces (cleanSpaces s) = cleanSpaces s := by
  show String.mk (stripWS (subWS (stripWS (subWS s.data false)) false)) =
    String.mk (stripWS (subWS s.data false))
  rw [subWS_fix (onlySpace_stripWS (onlySpace_subWS s.data false))
      (noWW_stripWS (noWW_subWS s.data false)),
    stripWS_idem]

example :
    _extract_first_compiled PATRONES_CODIGO "hola ID Estudiante: N12345678" =
      some "N12345678" := by decide

example :
    _extract_first_compiled PATRONES_NOMBRE
        "Apellidos y Nombres: Juan Perez Garcia ID Estudiante: N12345678" =
      some "Juan Perez Garcia ID Estudiante: N12345678" := by decide

example :
    _limpiar_nombre (some "Juan Perez Garcia ID Estudiante: N12345678") =
      some "Juan Perez Garcia" := by decide

example :
    _extraer_observacion_paquete "ver Convalidación  por   paquete (1-2-3-4) fin" =
      some "Convalidación por paquete (1-2-3-4)" := by decide

example : _extract_first_compiled PATRONES_CAMPUS "Campus:  \n" = some "" := by decide

example : _extract_first_compiled PATRONES_FECHA "x Fecha: 1/2/2020" =
    some "1/2/2020" := by decide

example : _extract_first_compiled PATRONES_TOTAL "y Total 15 z" = some "15" := by decide

example : _extract_first_compiled PATRONES_CODIGO "CÓDIGO: N9" = some "N9" := by decide

example :
    (scanPages [some "Apellidos y Nombres: A\nID Estudiante: N1\nCarrera UPN: B\nCampus: C\nPlan de Estudios: 1\nFecha: 1/1/2020\nVersión Conva : M\nTotal 1 \nConvalidación por paquete", some "z"] initScan).2.1 = 1 := by
  decide

example :
    (scanPages [some "Apellidos y Nombres: A\nID Estudiante: N1\nCarrera UPN: B\nPlan de Estudios: 1\nFecha: 1/1/2020\nVersión Conva : M\nCampus:  \n", some "z"] initScan).1.campus = some "" := by
  decide

example :
    countSome (scanPages [some "Apellidos y Nombres: A\nID Estudiante: N1\nCarrera UPN: B\nPlan de Estudios: 1\nFecha: 1/1/2020\nVersión Conva : M\nCampus:  \n"] initScan).1 = 7 := by
  decide

example :
    (scanPages [some "Apellidos y Nombres: A\nID Estudiante: N1\nCarrera UPN: B\nPlan de Estudios: 1\nFecha: 1/1/2020\nVersión Conva : M\nCampus:  \n", some "z"] initScan).2.1 = 2 := by
  decide

example :
    (extract_conva_header "/tmp/doc.pdf" [some "Carrera en UPN: Derecho  Modalidad: Presencial\n"] 4).carrera_upn = some "Derecho" := by
  decide

/-! ## The field extractor (C1, C10) -/

theorem extract_first_skip {q : RePat} {ps : List RePat} {text : String}
    (h : ∀ w : String, q text ≠ some (some w)) :
    _extract_first_compiled (q :: ps) text = _extract_first_compiled ps text := by
  simp only [_extract_first_compiled]

theorem extract_first_win {ps1 : List RePat} {p : RePat} {ps2 : List RePat}
    {text : String} {v : String}
    (h1 : ∀ q ∈ ps1, ∀ w : String, q text ≠ some (some w))
    (hp : p text = some (some v)) :
    _extract_first_compiled (ps1 ++ p :: ps2) text = some (cleanSpaces v) := by
  induction ps1 with
  | nil =>
    rw [List.nil_append]
    simp only [_extract_first_compiled, hp]
  | cons q qs ih =>
    rw [List.cons_append, extract_first_skip (h1 q (List.mem_cons_self q qs))]
    exact ih (fun q' hq' => h1 q' (List.mem_cons_of_mem _ hq'))

theorem extract_first_none {ps : List RePat} {text : String}
    (h : ∀ q ∈ ps, ∀ w : String, q text ≠ some (some w)) :
    _extract_first_compiled ps text = none := by
  induction ps with
  | nil => rfl
  | cons q qs ih =>
    rw [extract_first_skip (h q (List.mem_cons_self q qs))]
    exact ih (fun q' hq' => h q' (List.mem_cons_of_mem _ hq'))

/-- C1: for every field and every input text, the field extractor tries the
field's candidate patterns in listed order; the first pattern whose match
yields a non-null captured group determines the result
(whitespace-normalized) and the remaining candidates are not consulted; if
no candidate yields such a group the result is `none`, not an error. The
patterns are applied case-insensitively (third conjunct: the second
`Código` pattern, compiled with `re.IGNORECASE`, matches an upper-case
text). -/
theorem extract_first_spec :
    (∀ (text : String) (ps1 : List RePat) (p : RePat) (ps2 : List RePat) (v : String),
      (∀ q ∈ ps1, ∀ w : String, q text ≠ some (some w)) →
      p text = some (some v) →
      _extract_first_compiled (ps1 ++ p :: ps2) text = some (cleanSpaces v)) ∧
    (∀ (text : String) (ps : List RePat),
      (∀ q ∈ ps, ∀ w : String, q text ≠ some (some w)) →
      _extract_first_compiled ps text = none) ∧
    _extract_first_compiled PATRONES_CODIGO "CÓDIGO: N9" = some "N9" :=
  ⟨fun _ _ _ _ _ h1 hp => extract_first_win h1 hp,
   fun _ _ h => extract_first_none h,
   by decide⟩

/-- C1 witness: on `"Código: N5"` the first `Código` pattern
(`\bID\s*Estudiante:`) does not match, the second captures `N5`, and the
extractor returns it. -/
theorem extract_first_spec_witness :
    _extract_first_compiled PATRONES_CODIGO "Código: N5" = some "N5" := by
  have h1 : compiled mCodigo1 "Código: N5" = none := by decide
  have h := extract_first_spec.1 "Código: N5" [compiled mCodigo1] (compiled mCodigo2)
    [] "N5"
    (by
      intro q hq w hw
      rw [List.mem_singleton] at hq
      rw [hq, h1] at hw
      exact Option.noConfusion hw)
    (by decide)
  rw [show cleanSpaces "N5" = "N5" from by decide] at h
  exact h

theorem subWS_allWS_true {d : List Char} (h : ∀ c ∈ d, isWS c = true) :
    subWS d true = [] := by
  induction d with
  | nil => rfl
  | cons c cs ih =>
    simp only [subWS, h c (List.mem_cons_self c cs), if_true]
    exact ih (fun c' hc' => h c' (List.mem_cons_of_mem c hc'))

theorem cleanSpaces_allWS {v : String} (h : ∀ c ∈ v.data, isWS c = true) :
    cleanSpaces v = "" := by
  show String.mk (stripWS (subWS v.data false)) = ""
  cases hd : v.data with
  | nil => rfl
  | cons c cs =>
    rw [hd] at h
    have hc : isWS c = true := h c (List.mem_cons_self c cs)
    have hcs : subWS cs true = [] :=
      subWS_allWS_true (fun c' hc' => h c' (List.mem_cons_of_mem c hc'))
    simp only [subWS, hc, if_true, hcs]
    rfl

/-- C10: a pattern match whose group 1 is pure whitespace makes the field
extractor return the empty string, not an absent value (first conjunct,
for any pattern list and text). In the page scanner such a field becomes
resolved but uncounted: on the concrete two-page document
`["Campus:  \n", "Campus: Lima"]` the campus slot ends as `some ""` even
though page 2 carries the real value `"Lima"` (which the extractor does
find on page 2's text), the `found` counter stays `0`, and both pages are
scanned (no early exit from the empty-string field). -/
theorem empty_capture_resolved_not_counted :
    (∀ (text : String) (ps1 : List RePat) (p : RePat) (ps2 : List RePat) (v : String),
      (∀ q ∈ ps1, ∀ w : String, q text ≠ some (some w)) →
      p text = some (some v) →
      (∀ c ∈ v.data, isWS c = true) →
      _extract_first_compiled (ps1 ++ p :: ps2) text = some "") ∧
    (scanPages [some "Campus:  \n", some "Campus: Lima"] initScan).1.campus = some "" ∧
    (scanPages [some "Campus:  \n", some "Campus: Lima"] initScan).1.found = 0 ∧
    (scanPages [some "Campus:  \n", some "Campus: Lima"] initScan).2.1 = 2 ∧
    _extract_first_compiled PATRONES_CAMPUS "Campus: Lima" = some "Lima" :=
  ⟨fun _ _ _ _ v h1 hp hws => by
      rw [extract_first_win h1 hp, cleanSpaces_allWS hws],
   by decide, by decide, by decide, by decide⟩

/-- C10 witness: on the text `"Campus:  \n"` the campus pattern matches
with group `" "` and the extractor returns `some ""`. -/
theorem empty_capture_witness :
    _extract_first_compiled PATRONES_CAMPUS "Campus:  \n" = some "" :=
  empty_capture_resolved_not_counted.1 "Campus:  \n" [] (compiled (fun _ => mCampus)) [] " "
    (by intro q hq; rw [List.mem_nil_iff] at hq; exact absurd hq (fun h => h))
    (by decide) (by decide)

/-! ## The remarks detector (C7) -/

theorem paqCore_implies_phraseCore {l : List Char} {r : List Char}
    (h : paqCore l = some r) : ∃ r', phraseCore l = some r' := by
  cases hp : phraseCore l with
  | some r' => exact ⟨r', rfl⟩
  | none => rw [paqCore, hp] at h; exact Option.noConfusion h

theorem searchSlice_phrase_none {l : List Char}
    (h : searchSlice phraseCore l = none) : searchSlice paqCore l = none := by
  induction l with
  | nil =>
    simp only [searchSlice] at h ⊢
    cases hq : paqCore [] with
    | none => rfl
    | some r =>
      obtain ⟨r', hr'⟩ := paqCore_implies_phraseCore hq
      rw [hr'] at h
      exact Option.noConfusion h
  | cons c cs ih =>
    simp only [searchSlice] at h ⊢
    cases hp : phraseCore (c :: cs) with
    | some r => rw [hp] at h; exact Option.noConfusion h
    | none =>
      rw [hp] at h
      cases hq : paqCore (c :: cs) with
      | none => exact ih h
      | some r =>
        obtain ⟨r', hr'⟩ := paqCore_implies_phraseCore hq
        rw [hr'] at hp
        exact Option.noConfusion hp

theorem searchSlice_sub {core : List Char → Option (List Char)}
    {l s : List Char} (h : searchSlice core l = some s) :
    ∃ pre post, l = pre ++ s ++ post := by
  induction l with
  | nil =>
    simp only [searchSlice] at h
    cases hq : core [] with
    | none => rw [hq] at h; exact Option.noConfusion h
    | some r =>
      rw [hq] at h
      refine ⟨[], [], ?_⟩
      cases h
      rfl
  | cons c cs ih =>
    simp only [searchSlice] at h
    cases hq : core (c :: cs) with
    | some rest =>
      rw [hq] at h
      cases h
      exact ⟨[], List.drop ((c :: cs).length - rest.length) (c :: cs),
        (List.take_append_drop _ _).symm⟩
    | none =>
      rw [hq] at h
      obtain ⟨pre, post, hl⟩ := ih h
      exact ⟨c :: pre, post, by simp [hl]⟩

/-- C7: the remarks post-processor returns the phrase plus its
parenthesized list (whitespace-normalized) when the parenthesized form
`Convalidación por paquete (…)` matches somewhere; just the (matched)
phrase when only the bare phrase matches; and `none` when the phrase
matches nowhere (in which case the parenthesized form cannot match
either). Whatever it returns is the whitespace-normalization of an actual
substring of the text — never a partial or garbled match. On text
containing `Convalidación por paquete (1-2-3-4)` it returns exactly that
substring with internal whitespace normalized. -/
theorem observacion_paquete_spec :
    (∀ (t : String) (s : List Char), searchSlice paqCore t.data = some s →
      _extraer_observacion_paquete t = some (cleanSpaces (String.mk s))) ∧
    (∀ (t : String) (s : List Char), searchSlice paqCore t.data = none →
      searchSlice phraseCore t.data = some s →
      _extraer_observacion_paquete t = some (cleanSpaces (String.mk s))) ∧
    (∀ t : String, searchSlice phraseCore t.data = none →
      _extraer_observacion_paquete t = none) ∧
    (∀ (t : String) (r : String), _extraer_observacion_paquete t = some r →
      ∃ s pre post, t.data = pre ++ s ++ post ∧ r = cleanSpaces (String.mk s)) ∧
    _extraer_observacion_paquete "hay Convalidación  por   paquete (1-2-3-4) aquí" =
      some "Convalidación por paquete (1-2-3-4)" := by
  refine ⟨?_, ?_, ?_, ?_, by decide⟩
  · intro t s h
    simp only [_extraer_observacion_paquete, h]
  · intro t s h1 h2
    simp only [_extraer_observacion_paquete, h1, h2]
  · intro t h
    simp only [_extraer_observacion_paquete, searchSlice_phrase_none h, h]
  · intro t r h
    simp only [_extraer_observacion_paquete] at h
    cases hq : searchSlice paqCore t.data with
    | some s =>
      rw [hq] at h
      obtain ⟨pre, post, hl⟩ := searchSlice_sub hq
      exact ⟨s, pre, post, hl, (Option.some.injEq _ _ ▸ h).symm⟩
    | none =>
      rw [hq] at h
      cases hp : searchSlice phraseCore t.data with
      | some s =>
        rw [hp] at h
        obtain ⟨pre, post, hl⟩ := searchSlice_sub hp
        exact ⟨s, pre, post, hl, (Option.some.injEq _ _ ▸ h).symm⟩
      | none => rw [hp] at h; exact Option.noConfusion h

/-- C7 witness: no phrase yields `none`; a bare phrase yields exactly the
phrase. -/
theorem observacion_paquete_spec_witness :
    _extraer_observacion_paquete "sin paquete" = none ∧
    _extraer_observacion_paquete "dice Convalidación por paquete." =
      some "Convalidación por paquete" := by
  constructor
  · exact observacion_paquete_spec.2.2.1 "sin paquete" (by decide)
  · have h := observacion_paquete_spec.2.1 "dice Convalidación por paquete."
      "Convalidación por paquete".data (by decide) (by decide)
    rw [h]; decide

/-! ## The export guard (C8) -/

/-- C8: requesting export with an empty result list writes nothing and only
sets the "no data" status; with a non-empty list the spreadsheet is
written (with exactly the accumulated rows). -/
theorem export_excel_no_data :
    (∀ registros : List Row, registros = [] →
      (export_excel registros).1 = none ∧
      (export_excel registros).2 = ExportStatus.noData) ∧
    (∀ registros : List Row, registros ≠ [] →
      (export_excel registros).1 = some registros ∧
      (export_excel registros).2 = ExportStatus.exported) := by
  constructor
  · intro registros h
    subst h
    exact ⟨rfl, rfl⟩
  · intro registros h
    have : registros.isEmpty = false := by
      cases registros with
      | nil => exact absurd rfl h
      | cons r rs => rfl
    simp [export_excel, this]

/-- C8 witness: export of the empty list writes nothing; export of one row
reports the exported status. -/
theorem export_excel_no_data_witness :
    (export_excel []).1 = none ∧
    (export_excel [errorRow "e" "f.pdf"]).2 = ExportStatus.exported :=
  ⟨(export_excel_no_data.1 [] rfl).1,
   (export_excel_no_data.2 [errorRow "e" "f.pdf"] (List.cons_ne_nil _ _)).2⟩

/-! ## The page scanner (C3, C4) -/

theorem orElseNone (x : Option String) : x.orElse (fun _ => none) = x := by
  cases x <;> rfl

theorem orElseAssoc (x y z : Option String) :
    (x.orElse (fun _ => y)).orElse (fun _ => z) =
      x.orElse (fun _ => y.orElse (fun _ => z)) := by
  cases x <;> rfl

theorem findSomeConsOrElse (e : String → Option String) (t : String) (v : List String) :
    List.findSome? e (t :: v) = (e t).orElse (fun _ => List.findSome? e v) := by
  rw [List.findSome?_cons]; cases e t <;> rfl

theorem stepField_fst (cur v : Option String) :
    (stepField cur v).1 = cur.orElse (fun _ => v) := by
  cases cur <;> rfl

theorem stepField_count (cur v : Option String) :
    (if truthy (stepField cur v).1 then 1 else 0) =
      (if truthy cur then 1 else 0) + (stepField cur v).2 := by
  cases cur <;> simp [stepField, truthy]

/-- A field slot of the scanner state evolves by `orElse` with the page's
extraction result on each visited page, so its final value is the first
`some` that the field's extractor produces over the visited pages. -/
theorem scanPages_field (proj : ScanState → Option String) (e : String → Option String)
    (hp : ∀ st txt, proj (scanPage st txt) = (proj st).orElse (fun _ => e txt)) :
    ∀ (l : List (Option String)) (st : ScanState),
      proj (scanPages l st).1 =
        (proj st).orElse (fun _ => List.findSome? e (scanPages l st).2.2) := by
  intro l
  induction l with
  | nil =>
    intro st
    simp only [scanPages, List.findSome?_nil, orElseNone]
  | cons p ps ih =>
    intro st
    simp only [scanPages]
    by_cases hb : isBlank (p.getD "")
    · simp only [hb, if_true]
      exact ih st
    · simp only [hb, Bool.false_eq_true, if_false]
      by_cases h7 : 7 ≤ (scanPage st (p.getD "")).found
      · simp only [if_pos h7]
        rw [hp, findSomeConsOrElse]
        simp only [List.findSome?_nil, orElseNone]
      · simp only [if_neg h7]
        rw [ih (scanPage st (p.getD "")), hp, findSomeConsOrElse, orElseAssoc]

/-- C4: during the page scan, once a field holds a value it is never
re-attempted or overwritten by a later page: for each of the nine fields,
its final raw value equals the first value its extractor produces over the
scanned (non-blank, examined-in-order) pages — first-found-wins across
pages. -/
theorem scanner_first_found_wins (pages : List (Option String)) (maxp : Nat) :
    (scanDoc pages maxp).1.nombre_raw =
      List.findSome? (fun t => _extract_first_compiled PATRONES_NOMBRE t)
        (scanDoc pages maxp).2.2 ∧
    (scanDoc pages maxp).1.codigo =
      List.findSome? (fun t => _extract_first_compiled PATRONES_CODIGO t)
        (scanDoc pages maxp).2.2 ∧
    (scanDoc pages maxp).1.carrera_raw =
      List.findSome? (fun t => _extract_first_compiled PATRONES_CARRERA t)
        (scanDoc pages maxp).2.2 ∧
    (scanDoc pages maxp).1.campus =
      List.findSome? (fun t => _extract_first_compiled PATRONES_CAMPUS t)
        (scanDoc pages maxp).2.2 ∧
    (scanDoc pages maxp).1.plan =
      List.findSome? (fun t => _extract_first_compiled PATRONES_PLAN t)
        (scanDoc pages maxp).2.2 ∧
    (scanDoc pages maxp).1.fecha =
      List.findSome? (fun t => _extract_first_compiled PATRONES_FECHA t)
        (scanDoc pages maxp).2.2 ∧
    (scanDoc pages maxp).1.version =
      List.findSome? (fun t => _extract_first_compiled PATRONES_VERSION t)
        (scanDoc pages maxp).2.2 ∧
    (scanDoc pages maxp).1.total =
      List.findSome? (fun t => _extract_first_compiled PATRONES_TOTAL t)
        (scanDoc pages maxp).2.2 ∧
    (scanDoc pages maxp).1.observ =
      List.findSome? (fun t => _extraer_observacion_paquete t)
        (scanDoc pages maxp).2.2 := by
  refine ⟨?_, ?_, ?_, ?_, ?_, ?_, ?_, ?_, ?_⟩
  · exact scanPages_field (fun st => st.nombre_raw)
      (fun t => _extract_first_compiled PATRONES_NOMBRE t)
      (fun st txt => stepField_fst _ _) _ initScan
  · exact scanPages_field (fun st => st.codigo)
      (fun t => _extract_first_compiled PATRONES_CODIGO t)
      (fun st txt => stepField_fst _ _) _ initScan
  · exact scanPages_field (fun st => st.carrera_raw)
      (fun t => _extract_first_compiled PATRONES_CARRERA t)
      (fun st txt => stepField_fst _ _) _ initScan
  · exact scanPages_field (fun st => st.campus)
      (fun t => _extract_first_compiled PATRONES_CAMPUS t)
      (fun st txt => stepField_fst _ _) _ initScan
  · exact scanPages_field (fun st => st.plan)
      (fun t => _extract_first_compiled PATRONES_PLAN t)
      (fun st txt => stepField_fst _ _) _ initScan
  · exact scanPages_field (fun st => st.fecha)
      (fun t => _extract_first_compiled PATRONES_FECHA t)
      (fun st txt => stepField_fst _ _) _ initScan
  · exact scanPages_field (fun st => st.version)
      (fun t => _extract_first_compiled PATRONES_VERSION t)
      (fun st txt => stepField_fst _ _) _ initScan
  · exact scanPages_field (fun st => st.total)
      (fun t => _extract_first_compiled PATRONES_TOTAL t)
      (fun st txt => stepField_fst _ _) _ initScan
  · exact scanPages_field (fun st => st.observ)
      (fun t => _extraer_observacion_paquete t)
      (fun st txt => stepField_fst _ _) _ initScan

theorem scanPages_read_le (l : List (Option String)) (st : ScanState) :
    (scanPages l st).2.1 ≤ l.length := by
  induction l generalizing st with
  | nil => simp [scanPages]
  | cons p ps ih =>
    simp only [scanPages, List.length_cons]
    by_cases hb : isBlank (p.getD "")
    · simp only [hb, if_true]
      exact Nat.succ_le_succ (ih st)
    · simp only [hb, Bool.false_eq_true, if_false]
      by_cases h7 : 7 ≤ (scanPage st (p.getD "")).found
      · simp only [if_pos h7]
        omega
      · simp only [if_neg h7]
        exact Nat.succ_le_succ (ih _)

theorem scanPages_break_found (l : List (Option String)) (st : ScanState)
    (h : (scanPages l st).2.1 < l.length) : 7 ≤ (scanPages l st).1.found := by
  induction l generalizing st with
  | nil => simp [scanPages] at h
  | cons p ps ih =>
    simp only [scanPages, List.length_cons] at h ⊢
    by_cases hb : isBlank (p.getD "")
    · simp only [hb, if_true] at h ⊢
      exact ih st (by omega)
    · simp only [hb, Bool.false_eq_true, if_false] at h ⊢
      by_cases h7 : 7 ≤ (scanPage st (p.getD "")).found
      · simp only [if_pos h7] at h ⊢
        exact h7
      · simp only [if_neg h7] at h ⊢
        exact ih _ (by omega)

theorem scanPages_no_early (l : List (Option String)) (st : ScanState)
    (hst : st.found < 7) :
    ∀ m, m < (scanPages l st).2.1 →
      (scanPages (l.take m) st).1.found < 7 := by
  induction l generalizing st with
  | nil => intro m hm; simp [scanPages] at hm
  | cons p ps ih =>
    intro m hm
    simp only [scanPages] at hm
    by_cases hb : isBlank (p.getD "")
    · simp only [hb, if_true] at hm
      cases m with
      | zero => simpa [scanPages] using hst
      | succ m' =>
        rw [List.take_succ_cons]
        simp only [scanPages, hb, if_true]
        exact ih st hst m' (by omega)
    · simp only [hb, Bool.false_eq_true, if_false] at hm
      by_cases h7 : 7 ≤ (scanPage st (p.getD "")).found
      · simp only [if_pos h7] at hm
        cases m with
        | zero => simpa [scanPages] using hst
        | succ m' => omega
      · simp only [if_neg h7] at hm
        cases m with
        | zero => simpa [scanPages] using hst
        | succ m' =>
          rw [List.take_succ_cons]
          simp only [scanPages, hb, Bool.false_eq_true, if_false, if_neg h7]
          exact ih _ (by omega) m' (by omega)

theorem scanPage_found_count (st : ScanState) (txt : String) :
    countTruthy (scanPage st txt) + st.found = countTruthy st + (scanPage st txt).found := by
  simp only [scanPage, countTruthy]
  simp only [stepField_count]
  omega

theorem scanPages_found_count (l : List (Option String)) (st : ScanState) :
    countTruthy (scanPages l st).1 + st.found =
      countTruthy st + (scanPages l st).1.found := by
  induction l generalizing st with
  | nil => simp [scanPages]
  | cons p ps ih =>
    simp only [scanPages]
    by_cases hb : isBlank (p.getD "")
    · simp only [hb, if_true]
      exact ih st
    · simp only [hb, Bool.false_eq_true, if_false]
      by_cases h7 : 7 ≤ (scanPage st (p.getD "")).found
      · simp only [if_pos h7]
        exact scanPage_found_count st _
      · simp only [if_neg h7]
        have h1 := ih (scanPage st (p.getD ""))
        have h2 := scanPage_found_count st (p.getD "")
        omega

/-- C3 (amended): the scanner examines at most `min(number of pages, 4)`
pages, and stops at the first page after which at least 7 of the 9
extractable fields hold a NON-EMPTY value (the `found` counter, shown in
`scanPages_found_count` to equal `countTruthy`, skips fields resolved to
the empty string): if it stopped before the page budget the threshold was
reached, and at every earlier prefix it was not. -/
theorem scanner_early_exit_amended (pages : List (Option String)) :
    (scanDoc pages 4).2.1 ≤ min pages.length 4 ∧
    ((scanDoc pages 4).2.1 < min pages.length 4 →
      7 ≤ countTruthy (scanDoc pages 4).1) ∧
    (∀ m, m < (scanDoc pages 4).2.1 →
      countTruthy (scanPages ((pages.take (min pages.length 4)).take m) initScan).1 < 7) := by
  have hlen : (pages.take (min pages.length 4)).length = min pages.length 4 := by
    rw [List.length_take]
    omega
  have hinit : countTruthy initScan = 0 := by decide
  have hinitf : initScan.found = 0 := by decide
  refine ⟨?_, ?_, ?_⟩
  · have h := scanPages_read_le (pages.take (min pages.length 4)) initScan
    rw [hlen] at h
    exact h
  · intro h
    rw [← hlen] at h
    have hb := scanPages_break_found _ initScan h
    have hc := scanPages_found_count (pages.take (min pages.length 4)) initScan
    simp only [scanDoc]
    omega
  · intro m hm
    have h := scanPages_no_early (pages.take (min pages.length 4)) initScan
      (by omega) m hm
    have hc := scanPages_found_count ((pages.take (min pages.length 4)).take m) initScan
    omega

/-- C3 counterexample: on this two-page document, page 1 resolves seven of
the nine fields — campus as the empty string (its pattern captures a pure
whitespace group), the other six with non-empty values — so after page 1
at least 7 of the 9 extractable fields hold a value; yet `found`, which
ignores the falsy empty string, is 6, and the scanner goes on to read
page 2. The claim as stated ("stops scanning at the first page after which
at least 7 of the 9 extractable fields hold a value") therefore fails. -/
theorem scanner_threshold_counterexample :
    7 ≤ countSome (scanPages
      [some "Apellidos y Nombres: A\nID Estudiante: N1\nCarrera UPN: B\nPlan de Estudios: 1\nFecha: 1/1/2020\nVersión Conva : M\nCampus:  \n"]
      initScan).1 ∧
    (scanPages
      [some "Apellidos y Nombres: A\nID Estudiante: N1\nCarrera UPN: B\nPlan de Estudios: 1\nFecha: 1/1/2020\nVersión Conva : M\nCampus:  \n"]
      initScan).1.found = 6 ∧
    (scanDoc
      [some "Apellidos y Nombres: A\nID Estudiante: N1\nCarrera UPN: B\nPlan de Estudios: 1\nFecha: 1/1/2020\nVersión Conva : M\nCampus:  \n",
       some "z"] 4).2.1 = 2 :=
  ⟨by decide, by decide, by decide⟩

/-- C3 witness: a document whose first page yields all nine header fields
is read no further (one page examined of two), and the amended theorem's
minimality clause applied at `m = 0` confirms the threshold was unmet
before any page. -/
theorem scanner_early_exit_witness :
    (scanDoc
      [some "Apellidos y Nombres: A\nID Estudiante: N1\nCarrera UPN: B\nCampus: C\nPlan de Estudios: 1\nFecha: 1/1/2020\nVersión Conva : M\nTotal 1 \nConvalidación por paquete",
       some "z"] 4).2.1 = 1 ∧
    countTruthy (scanPages [] initScan).1 < 7 := by
  constructor
  · decide
  · have h := (scanner_early_exit_amended
      [some "Apellidos y Nombres: A\nID Estudiante: N1\nCarrera UPN: B\nCampus: C\nPlan de Estudios: 1\nFecha: 1/1/2020\nVersión Conva : M\nTotal 1 \nConvalidación por paquete",
       some "z"]).2.2 0 (by decide)
    simpa using h

/-! ## The batch worker (C5, C6) -/

theorem workerGo_all_rows (fetch : String → Except String (List (Option String)))
    (flag : Nat → Bool) (h : ∀ i, flag i = false) :
    ∀ (ps : List String) (i : Nat),
      (workerGo fetch flag i ps).1 = ps.map (fun p => (processFile fetch p).1) := by
  intro ps
  induction ps with
  | nil => intro i; rfl
  | cons p ps' ih =>
    intro i
    simp only [workerGo, h i, Bool.false_eq_true, if_false, List.map_cons]
    rw [ih (i + 1)]

/-- C5: a batch processed to completion (cancellation flag never set)
appends exactly one row per input file, in submission order — the result
list is the map of per-file processing over the input list, never
reordered or deduplicated; a file whose extraction raises contributes at
its position the error row whose remarks column holds `"ERROR: "` plus the
exception description while all other data columns are empty (and the
filename column the file's name), and the batch continues with the
remaining files. -/
theorem worker_rows_per_file :
    (∀ (fetch : String → Except String (List (Option String)))
       (flag : Nat → Bool) (paths : List String), (∀ i, flag i = false) →
      (worker fetch flag paths).1 = paths.map (fun p => (processFile fetch p).1)) ∧
    (∀ (fetch : String → Except String (List (Option String))) (p ex : String),
      fetch p = .error ex → (processFile fetch p).1 = errorRow ex (basename p)) ∧
    (∀ ex name : String,
      (errorRow ex name).observaciones = some ("ERROR: " ++ ex) ∧
      (errorRow ex name).nombre_pdf = some name ∧
      (errorRow ex name).apellidos_nombres = none ∧
      (errorRow ex name).codigo = none ∧
      (errorRow ex name).carrera_upn = none ∧
      (errorRow ex name).campus = none ∧
      (errorRow ex name).plan_estudios = none ∧
      (errorRow ex name).fecha = none ∧
      (errorRow ex name).version_excelconva = none ∧
      (errorRow ex name).total_creditos = none) := by
  refine ⟨?_, ?_, ?_⟩
  · intro fetch flag paths h
    simp only [worker]
    split
    · exact workerGo_all_rows fetch flag h paths 0
    · exact workerGo_all_rows fetch flag h paths 0
  · intro fetch p ex hf
    simp [processFile, hf]
  · intro ex name
    exact ⟨rfl, rfl, rfl, rfl, rfl, rfl, rfl, rfl, rfl, rfl⟩

/-- C5 witness: a three-file batch with the middle file failing yields, in
order, the first file's row, the error row, the third file's row. -/
theorem worker_rows_per_file_witness :
    (worker fetchW (fun _ => false) ["a.pdf", "b.pdf", "c.pdf"]).1 =
      [(processFile fetchW "a.pdf").1, errorRow "boom" "b.pdf",
       (processFile fetchW "c.pdf").1] := by
  have h1 := worker_rows_per_file.1 fetchW (fun _ => false)
    ["a.pdf", "b.pdf", "c.pdf"] (fun _ => rfl)
  have h2 := worker_rows_per_file.2.1 fetchW "b.pdf" "boom" rfl
  rw [h1]
  simp only [List.map_cons, List.map_nil]
  rw [h2]
  rfl

theorem workerGo_cancel_rows (fetch : String → Except String (List (Option String)))
    (flag : Nat → Bool) :
    ∀ (ps : List String) (i m : Nat),
      (∀ j, j < m → flag (i + j) = false) → flag (i + m) = true → m ≤ ps.length →
      (workerGo fetch flag i ps).1 =
        (ps.take m).map (fun p => (processFile fetch p).1) := by
  intro ps
  induction ps with
  | nil =>
    intro i m hbef hm hlen
    have : m = 0 := by simpa using hlen
    subst this
    rfl
  | cons p ps' ih =>
    intro i m hbef hm hlen
    cases m with
    | zero =>
      have h0 : flag i = true := by simpa using hm
      simp [workerGo, h0]
    | succ m' =>
      have h0 : flag i = false := by
        have := hbef 0 (by omega)
        simpa using this
      simp only [workerGo, h0, Bool.false_eq_true, if_false, List.take_succ_cons,
        List.map_cons, List.cons.injEq]
      refine ⟨trivial, ?_⟩
      refine ih (i + 1) m' (fun j hj => ?_) ?_ (by simpa using hlen)
      · have := hbef (j + 1) (by omega)
        have harith : i + (j + 1) = i + 1 + j := by omega
        rwa [harith] at this
      · have harith : i + (m' + 1) = i + 1 + m' := by omega
        rwa [harith] at hm

/-- C6: the cancellation flag is read only at file boundaries; if it is
unset before each of the first `k` files, set at the boundary after file
`k` completes, stays set (monotone), and `k < n` files remain, then the
batch stops with exactly the `k` already-processed rows — never a partial
row for file `k+1` — and the final status reports cancellation. -/
theorem worker_cancellation (fetch : String → Except String (List (Option String)))
    (flag : Nat → Bool) (paths : List String) (k : Nat)
    (hmono : ∀ i j, i ≤ j → flag i = true → flag j = true)
    (hbefore : ∀ i, i < k → flag i = false)
    (hk : flag k = true) (hkn : k < paths.length) :
    (worker fetch flag paths).1 =
      (paths.take k).map (fun p => (processFile fetch p).1) ∧
    (worker fetch flag paths).1.length = k ∧
    (worker fetch flag paths).2.isCancelledStatus = true := by
  have hrows : (workerGo fetch flag 0 paths).1 =
      (paths.take k).map (fun p => (processFile fetch p).1) := by
    refine workerGo_cancel_rows fetch flag paths 0 k (fun j hj => ?_) ?_ (by omega)
    · simpa using hbefore j hj
    · simpa using hk
  have hend : flag paths.length = true := hmono k paths.length (by omega) hk
  have hworker1 : (worker fetch flag paths).1 = (workerGo fetch flag 0 paths).1 := by
    simp only [worker]
    split <;> rfl
  refine ⟨by rw [hworker1, hrows], ?_, ?_⟩
  · rw [hworker1, hrows, List.length_map, List.length_take]
    omega
  · simp [worker, hend, BatchStatus.isCancelledStatus]

/-- C6 witness: cancelling after file 2 of 3 yields exactly the two
processed rows and a cancelled status. -/
theorem worker_cancellation_witness :
    (worker (fun _ => .error "x") (fun i => decide (2 ≤ i)) ["a", "b", "c"]).1 =
      [errorRow "x" "a", errorRow "x" "b"] ∧
    (worker (fun _ => .error "x") (fun i => decide (2 ≤ i))
      ["a", "b", "c"]).2.isCancelledStatus = true := by
  have h := worker_cancellation (fun _ => .error "x") (fun i => decide (2 ≤ i))
    ["a", "b", "c"] 2
    (fun i j hij hi => by
      simp only [decide_eq_true_eq] at hi ⊢
      omega)
    (fun i hi => by
      simp only [decide_eq_false_iff_not]
      omega)
    (by decide) (by decide)
  refine ⟨?_, h.2.2⟩
  rw [h.1]
  decide

/-! ## The name post-processor (C2) -/

/-- C2 counterexample: in `"A Código: B ID Estudiante: C"` the sub-label
`" Código:"` occurs (case-insensitively) at index 1, before
`" ID Estudiante:"` at index 11; truncating at the first occurrence in the
string of any sub-label would give `"A"`, but `_limpiar_nombre` walks the
fixed list in order and truncates at the first LISTED sub-label that
occurs, producing `"A Código: B"`. The claim as stated therefore fails. -/
theorem limpiar_nombre_counterexample :
    findSub ("A Código: B ID Estudiante: C".data.map lowChar)
      (" Código:".data.map lowChar) = some 1 ∧
    findSub ("A Código: B ID Estudiante: C".data.map lowChar)
      (" ID Estudiante:".data.map lowChar) = some 11 ∧
    _limpiar_nombre (some "A Código: B ID Estudiante: C") = some "A Código: B" ∧
    cleanSpaces (String.mk ("A Código: B ID Estudiante: C".data.take 1)) = "A" ∧
    ("A Código: B" : String) ≠ "A" :=
  ⟨by decide, by decide, by decide, by decide, by decide⟩

/-- C2 (amended): `_limpiar_nombre` truncates the raw name at the first
occurrence in the string of the FIRST sub-label, in the fixed list order
`[" ID Estudiante:", " Código:", " CODIGO:", " ID ESTUDIANTE:"]`, that
occurs in it case-insensitively (then whitespace-normalizes); with no
sub-label present it only whitespace-normalizes; `None` and the empty
string map to `None`. In particular the text
`"Apellidos y Nombres: Juan Perez Garcia ID Estudiante: N12345678"` yields
name `"Juan Perez Garcia"` and code `"N12345678"` (the claim's example,
which the code does satisfy). -/
theorem limpiar_nombre_amended :
    (∀ (s : String), s ≠ "" →
      ∀ (cs1 : List String) (c : String) (cs2 : List String) (idx : Nat),
        cortes = cs1 ++ c :: cs2 →
        (∀ c' ∈ cs1, findSub (s.data.map lowChar) (c'.data.map lowChar) = none) →
        findSub (s.data.map lowChar) (c.data.map lowChar) = some idx →
        _limpiar_nombre (some s) =
          some (cleanSpaces (String.mk (s.data.take idx)))) ∧
    (∀ s : String, s ≠ "" →
      (∀ c ∈ cortes, findSub (s.data.map lowChar) (c.data.map lowChar) = none) →
      _limpiar_nombre (some s) = some (cleanSpaces s)) ∧
    _limpiar_nombre none = none ∧
    _limpiar_nombre (some "") = none ∧
    _limpiar_nombre (_extract_first_compiled PATRONES_NOMBRE
        "Apellidos y Nombres: Juan Perez Garcia ID Estudiante: N12345678") =
      some "Juan Perez Garcia" ∧
    _extract_first_compiled PATRONES_CODIGO
        "Apellidos y Nombres: Juan Perez Garcia ID Estudiante: N12345678" =
      some "N12345678" := by
  refine ⟨?_, ?_, rfl, by decide, by decide, by decide⟩
  · intro s hs cs1 c cs2 idx hcortes h1 hc
    have hnil : List.findSome?
        (fun c' => findSub (s.data.map lowChar) (c'.data.map lowChar)) cs1 = none :=
      List.findSome?_eq_none_iff.mpr h1
    have hfind : List.findSome?
        (fun c' => findSub (s.data.map lowChar) (c'.data.map lowChar)) cortes =
        some idx := by
      rw [hcortes, List.findSome?_append, hnil, Option.none_or,
        List.findSome?_cons, hc]
    simp only [_limpiar_nombre, if_neg hs, hfind]
  · intro s hs h
    have hfind : List.findSome?
        (fun c' => findSub (s.data.map lowChar) (c'.data.map lowChar)) cortes =
        none :=
      List.findSome?_eq_none_iff.mpr h
    simp only [_limpiar_nombre, if_neg hs, hfind]

/-- C2 witness: the amended truncation rule applied to the claim's example
raw name (` ID Estudiante:` is the first listed sub-label and first occurs
at index 17). -/
theorem limpiar_nombre_amended_witness :
    _limpiar_nombre (some "Juan Perez Garcia ID Estudiante: N12345678") =
      some "Juan Perez Garcia" := by
  have h := limpiar_nombre_amended.1 "Juan Perez Garcia ID Estudiante: N12345678"
    (by decide) [] " ID Estudiante:" [" Código:", " CODIGO:", " ID ESTUDIANTE:"] 17
    rfl (fun c' hc' => absurd hc' (List.not_mem_nil c')) (by decide)
  rw [h]
  decide
